import Mathlib

/-!
Verification of the command interpreter of the JARIS / Wolf AI assistant
repository.  The interpreter is realised in the Express server file
(src/unnamed/part_013): the ALLOWED_COMMANDS table (lines 37-172) of
JavaScript regular expressions with their handlers, and the matching loop
of the /api/command/execute route (lines 190-231) that scans the table in
declaration order, runs the first entry whose pattern matches, and forwards
the text to the /api/ai/chat endpoint when nothing matches.  Chat mode is
the AIMode component (src/src/components/AIMode.tsx, sendMessage), which
posts straight to /api/ai/chat and never consults the table.

Strings are modelled as lists of characters.  Each JavaScript regular
expression of the table is translated into a Lean function that reproduces
the engine's greedy-with-backtracking semantics on this model; the /i flag
is modelled by running the match decision on a lowercased copy of the
input (Char.toLower, the ASCII case fold) while capture groups slice the
original text, exactly as String.prototype.match returns slices of the
original string.  The \s class is modelled by its ASCII part and the
dot/anchor line terminators by newline and carriage return.
-/

/-- ASCII part of the JavaScript \s character class: space, tab, newline,
carriage return, vertical tab, form feed. -/
def isSpaceChar (c : Char) : Bool :=
  c = ' ' || c = '\t' || c = '\n' || c = '\r' || c = '\x0b' || c = '\x0c'

/-- Characters the JavaScript dot does not match and that make an
end-anchored match fail: newline and carriage return. -/
def isLineTerm (c : Char) : Bool :=
  c = '\n' || c = '\r'

/-- Lowercased working copy used for the /i match decision. -/
def lc (s : List Char) : List Char := s.map Char.toLower

/-- JavaScript String.prototype.trim on the character-list model
(ASCII whitespace). -/
def trimChars (s : List Char) : List Char :=
  ((s.dropWhile isSpaceChar).reverse.dropWhile isSpaceChar).reverse

/-- Slice of the original text: (start, length) capture positions. -/
def sliceAt (s : List Char) (p : Nat × Nat) : List Char :=
  (s.drop p.1).take p.2

/-- Match decision for the patterns of shape /^kw\s+(.+)$/i (the entries
for create folder, execute, navigate and open of ALLOWED_COMMANDS,
src/unnamed/part_013 lines 38-45, 73-81, 82-96, 97-171).  Runs on the
lowercased copy, returns the capture position of group 1 in the original
text.  The greedy \s+ backtracks one character when (.+)$ would otherwise
be empty, so a keyword followed by two or more whitespace characters
matches with a one-character whitespace capture, while the bare keyword or
the keyword followed by a single whitespace character does not match. -/
def slotPos (kw : List Char) (l : List Char) : Option (Nat × Nat) :=
  if l.take kw.length = kw then
    let t := l.drop kw.length
    let w := (t.takeWhile isSpaceChar).length
    let r := t.drop w
    if w = 0 then none
    else if r = [] then
      if 2 ≤ t.length ∧ (t.getLast?.all fun c => !isLineTerm c) then
        some (kw.length + w - 1, 1)
      else none
    else if r.any isLineTerm then none
    else some (kw.length + w, r.length)
  else none

/-- The part of the create file pattern after the keyword alternation:
\s+([^\s]+)(?:\s+with\s+)?(.*)? matched right after a keyword of length b.
Group 1 is the first whitespace-delimited token after the keyword; the
optional non-capturing group consumes a whitespace run, the literal with
and another whitespace run when they are present right after the token;
group 2 then captures up to the first line terminator (the pattern is not
end-anchored, so a failing group 2 never rejects the whole match). -/
def createFileAt (b : Nat) (l : List Char) : Option ((Nat × Nat) × (Nat × Nat)) :=
  let t := l.drop b
  let w := (t.takeWhile isSpaceChar).length
  if w = 0 then none
  else
    let l2 := t.drop w
    let k := (l2.takeWhile (fun c => !isSpaceChar c)).length
    if k = 0 then none
    else
      let u := l2.drop k
      let w2 := (u.takeWhile isSpaceChar).length
      let w3 := ((u.drop (w2 + 4)).takeWhile isSpaceChar).length
      let cstart :=
        if 1 ≤ w2 ∧ (u.drop w2).take 4 = ("with".data) ∧ 1 ≤ w3 then
          w2 + 4 + w3
        else 0
      let clen := ((u.drop cstart).takeWhile (fun c => !isLineTerm c)).length
      some ((b + w, k), (b + w + k + cstart, clen))

/-- Match decision for /^(?:create file|write)\s+([^\s]+)(?:\s+with\s+)?(.*)?/i
(the create file entry, src/unnamed/part_013 lines 47-56).  Returns the
capture positions of group 1 (file name token) and group 2 (content) in
the original text.  The two alternatives of the keyword alternation differ
at their first character, so at most one of them can be the leading
keyword and trying them in order is a plain if chain. -/
def createFilePos (l : List Char) : Option ((Nat × Nat) × (Nat × Nat)) :=
  if l.take 11 = ("create file".data) then createFileAt 11 l
  else if l.take 5 = ("write".data) then createFileAt 5 l
  else none

/-- Match decision for /^list files(?: in )?(.*)?$/i (the list files entry,
src/unnamed/part_013 lines 57-72).  Returns the capture position of
group 1 in the original text. -/
def listFilesPos (l : List Char) : Option (Nat × Nat) :=
  if l.take 10 = ("list files".data) then
    let t := l.drop 10
    if t.take 4 = (" in ".data) then
      if (t.drop 4).any isLineTerm then none else some (14, t.length - 4)
    else
      if t.any isLineTerm then none else some (10, t.length)
  else none

/-- The closed set of intent categories of the specification.  The table of
src/unnamed/part_013 realises six of them; ai_chat is the fallback. -/
inductive Category
  | launch_app | close_app | file_create | folder_create | file_list
  | navigate | shell_execute | system_volume | system_power | media_control
  | window_control | web_search | web_open | screenshot | ai_chat
deriving DecidableEq

/-- Coarse confidence tag of an intent. -/
inductive Confidence
  | exact
  | fallback
deriving DecidableEq

/-- The structured classification result for one utterance. -/
structure Intent where
  category : Category
  parameters : List (String × String)
  raw_text : List Char
  confidence : Confidence
deriving DecidableEq

/-- One entry of the pattern catalog: its key in ALLOWED_COMMANDS, the
action category its handler performs, and the matcher, which returns the
extracted parameters (the handler's processing of the capture groups) on
success. -/
structure Entry where
  name : String
  category : Category
  matcher : List Char → Option (List (String × String))

/-- Builds one named parameter from a captured character list. -/
def mkParam (k : String) (v : List Char) : String × String := (k, String.mk v)

/-- The pattern catalog, in the declaration order of ALLOWED_COMMANDS
(src/unnamed/part_013 lines 37-172), which is the order Object.entries
yields in the matching loop.  Parameter values reproduce the handlers'
processing of the capture groups: every handler trims its captures, and
the open handler additionally lowercases its capture before trimming. -/
def catalog : List Entry := [
  { name := "create folder", category := Category.folder_create,
    matcher := fun s => (slotPos ("create folder".data) (lc s)).map
      (fun p => [mkParam "name" (trimChars (sliceAt s p))]) },
  { name := "create file", category := Category.file_create,
    matcher := fun s => (createFilePos (lc s)).map
      (fun p => [mkParam "name" (trimChars (sliceAt s p.1)),
                 mkParam "content" (trimChars (sliceAt s p.2))]) },
  { name := "list files", category := Category.file_list,
    matcher := fun s => (listFilesPos (lc s)).map
      (fun p => [mkParam "dir" (trimChars (sliceAt s p))]) },
  { name := "execute", category := Category.shell_execute,
    matcher := fun s => (slotPos ("execute".data) (lc s)).map
      (fun p => [mkParam "cmd" (trimChars (sliceAt s p))]) },
  { name := "navigate", category := Category.navigate,
    matcher := fun s => (slotPos ("navigate".data) (lc s)).map
      (fun p => [mkParam "path" (trimChars (sliceAt s p))]) },
  { name := "open", category := Category.launch_app,
    matcher := fun s => (slotPos ("open".data) (lc s)).map
      (fun p => [mkParam "app" (trimChars (lc (sliceAt s p)))]) }
]

/-- The fallback intent: no entry matched, the text goes to the AI chat
client (src/unnamed/part_013 lines 205-225). -/
def fallbackIntent (s : List Char) : Intent :=
  { category := Category.ai_chat, parameters := [], raw_text := s,
    confidence := Confidence.fallback }

/-- The matching loop of /api/command/execute (src/unnamed/part_013
lines 195-203): scan the entries in order, the first whose pattern matches
wins and the loop breaks; if none matches, fall back to AI chat. -/
def scan : List Entry → List Char → Intent
  | [], s => fallbackIntent s
  | e :: es, s =>
    match e.matcher s with
    | some ps =>
      { category := e.category, parameters := ps, raw_text := s,
        confidence := Confidence.exact }
    | none => scan es s

/-- The two operating modes of the user interface. -/
inductive Mode
  | chat
  | pc_control
deriving DecidableEq

/-- The command interpreter.  In chat mode the client (AIMode.tsx,
sendMessage) posts the text straight to /api/ai/chat, so no catalog entry
is consulted; in pc-control mode the text goes through the matching loop
of /api/command/execute. -/
def interpret (s : List Char) (m : Mode) : Intent :=
  match m with
  | Mode.chat => fallbackIntent s
  | Mode.pc_control => scan catalog s

/-- String-literal entry point for concrete inputs. -/
def interpretS (s : String) (m : Mode) : Intent := interpret s.data m

/-- Ambient server state visible to the /api/command/execute route: the
working directory read by the handlers via process.cwd().  The match
decision of the loop (src/unnamed/part_013 lines 195-203) reads none
of it: it touches only the request text and the constant table. -/
structure ServerState where
  cwd : String

/-- The interpreter as it runs inside the route, with the ambient server
state in scope.  The classification of src/unnamed/part_013 lines 195-203
reads only the text and the constant ALLOWED_COMMANDS table, which this
definition makes explicit. -/
def interpretIn (_st : ServerState) (s : List Char) (m : Mode) : Intent :=
  interpret s m

/-- If no entry of a table matches, the loop falls through to the AI chat
fallback. -/
theorem scanAllNone (es : List Entry) (s : List Char)
    (h : ∀ e ∈ es, e.matcher s = none) : scan es s = fallbackIntent s := by
  induction es with
  | nil => rfl
  | cons e es ih =>
    have he : e.matcher s = none := h e (List.mem_cons_self e es)
    simp only [scan, he]
    exact ih fun d hd => h d (List.mem_cons_of_mem e hd)

/-- The loop's first-match discipline on an arbitrary table: if every entry
before position i fails and the entry at position i succeeds, the loop
returns that entry's intent. -/
theorem scanFirstMatch (es : List Entry) (s : List Char) :
    ∀ (i : Nat) (h : i < es.length) (ps : List (String × String)),
    (∀ d ∈ es.take i, d.matcher s = none) →
    (es.get ⟨i, h⟩).matcher s = some ps →
    scan es s =
      { category := (es.get ⟨i, h⟩).category, parameters := ps,
        raw_text := s, confidence := Confidence.exact } := by
  induction es with
  | nil => intro i h; exact absurd h (Nat.not_lt_zero i)
  | cons e es ih =>
    intro i h ps hbefore hmatch
    cases i with
    | zero =>
      simp only [List.get] at hmatch ⊢
      simp only [scan, hmatch]
    | succ j =>
      have he : e.matcher s = none := by
        apply hbefore
        simp [List.take_succ_cons]
      simp only [scan, he]
      simp only [List.get] at hmatch ⊢
      exact ih j (Nat.lt_of_succ_lt_succ h) ps
        (fun d hd => hbefore d (by simp [List.take_succ_cons, hd])) hmatch

/-- The loop preserves the raw text in the produced intent. -/
theorem scanRawText (es : List Entry) (s : List Char) :
    (scan es s).raw_text = s := by
  induction es with
  | nil => rfl
  | cons e es ih =>
    simp only [scan]
    cases e.matcher s <;> simp [ih]

/-- Characters with equal code points are equal. -/
theorem charToNatInj {a b : Char} (h : a.toNat = b.toNat) : a = b := by
  rw [← Char.ofNat_toNat a, h, Char.ofNat_toNat]

/-- Code point of Char.ofNat below the surrogate range. -/
theorem toNatOfNatSmall (n : Nat) (h : n < 55296) : (Char.ofNat n).toNat = n := by
  unfold Char.ofNat
  rw [dif_pos (Or.inl h)]
  rfl

/-- Whitespace characters are fixed by the ASCII case fold. -/
theorem toLowerOfSpace {c : Char} (h : isSpaceChar c = true) :
    Char.toLower c = c := by
  simp only [isSpaceChar, Bool.or_eq_true, decide_eq_true_eq] at h
  rcases h with ((((h | h) | h) | h) | h) | h <;> subst h <;> decide

/-- A character whose code point is at least 97 is not whitespace. -/
theorem notSpaceOfHigh {x : Char} (h : 97 ≤ x.toNat) : isSpaceChar x = false := by
  simp only [isSpaceChar, Bool.or_eq_false_iff, decide_eq_false_iff_not]
  refine ⟨⟨⟨⟨⟨?_, ?_⟩, ?_⟩, ?_⟩, ?_⟩, ?_⟩ <;>
    · rintro rfl
      exact absurd h (by decide)

/-- The ASCII case fold maps non-whitespace characters to non-whitespace
characters. -/
theorem spaceFalseToLower {c : Char} (h : isSpaceChar c = false) :
    isSpaceChar (Char.toLower c) = false := by
  unfold Char.toLower
  by_cases hc : Char.toNat c ≥ 65 ∧ Char.toNat c ≤ 90
  · rw [if_pos hc]
    have ht : (Char.ofNat (Char.toNat c + 32)).toNat = Char.toNat c + 32 :=
      toNatOfNatSmall _ (by omega)
    exact notSpaceOfHigh (by rw [ht]; omega)
  · rw [if_neg hc]
    exact h

/-- An entry whose match decision depends only on the lowercased copy of
the input. -/
def MatchLC (e : Entry) : Prop :=
  ∀ s t : List Char, lc s = lc t → (e.matcher s = none ↔ e.matcher t = none)

/-- Every entry of the catalog decides its match on the lowercased copy:
this is the /i flag on each pattern of ALLOWED_COMMANDS. -/
theorem catalogMatchLC : ∀ e ∈ catalog, MatchLC e := by
  intro e he
  simp only [catalog, List.mem_cons, List.not_mem_nil, or_false] at he
  rcases he with rfl | rfl | rfl | rfl | rfl | rfl <;>
    · intro s t h
      simp only [Option.map_eq_none', h]

/-- Two inputs with the same lowercased copy drive the loop through the
same sequence of match decisions, hence to the same category. -/
theorem scanCatLC (es : List Entry) (hes : ∀ e ∈ es, MatchLC e) :
    ∀ s t : List Char, lc s = lc t →
    (scan es s).category = (scan es t).category := by
  induction es with
  | nil => intro s t _; rfl
  | cons e es ih =>
    intro s t h
    have hm := hes e (List.mem_cons_self e es)
    cases hcs : e.matcher s with
    | none =>
      have hct : e.matcher t = none := (hm s t h).mp hcs
      simp only [scan, hcs, hct]
      exact ih (fun d hd => hes d (List.mem_cons_of_mem e hd)) s t h
    | some ps =>
      cases hct : e.matcher t with
      | none =>
        rw [(hm s t h).mpr hct] at hcs
        exact Option.noConfusion hcs
      | some pt => simp only [scan, hcs, hct]

/-- Claim C1, counterexample: in pc-control mode the input
"take a screenshot" is not classified as a screenshot intent — the
ALLOWED_COMMANDS table of src/unnamed/part_013 has no screenshot entry,
so no pattern matches this text. -/
theorem c1_counterexample :
    (interpretS "take a screenshot" Mode.pc_control).category ≠
      Category.screenshot := by
  decide

/-- Claim C1 (amended): in pc-control mode the input "take a screenshot"
matches no catalog entry and is returned as the ai_chat fallback with
empty parameters and fallback confidence, so it is routed to the AI chat
client rather than to a screenshot action. -/
theorem c1_amended_screenshot :
    interpretS "take a screenshot" Mode.pc_control =
      fallbackIntent ("take a screenshot".data) := by
  decide

/-- Claim C2: for every text in pc-control mode matched by zero catalog
entries, the interpreter returns the fallback intent — category ai_chat,
fallback confidence, empty parameters — and the text is routed to the AI
chat client (src/unnamed/part_013 lines 205-225). -/
theorem c2_fallback_correctness (s : List Char)
    (h : ∀ e ∈ catalog, e.matcher s = none) :
    interpret s Mode.pc_control = fallbackIntent s :=
  scanAllNone catalog s h

/-- Witness for claim C2 at the concrete unmatched input
"what is the weather like". -/
theorem c2_fallback_correctness_witness :
    (∀ e ∈ catalog, e.matcher ("what is the weather like".data) = none) ∧
    interpret ("what is the weather like".data) Mode.pc_control =
      fallbackIntent ("what is the weather like".data) :=
  ⟨by decide, c2_fallback_correctness _ (by decide)⟩

/-- Claim C3: in chat mode the interpreter skips pattern matching entirely
and returns the ai_chat fallback for every text — the AIMode client posts
straight to /api/ai/chat — even for text such as "open chrome" that
would match a catalog entry in pc-control mode. -/
theorem c3_chat_mode_bypass :
    (∀ s : List Char, interpret s Mode.chat = fallbackIntent s) ∧
    (interpretS "open chrome" Mode.chat).category = Category.ai_chat ∧
    (interpretS "open chrome" Mode.pc_control).category = Category.launch_app :=
  ⟨fun _ => rfl, by decide, by decide⟩

/-- Claim C4: matching is resolved by a deterministic first-match rule
over the fixed catalog order (the declaration order of ALLOWED_COMMANDS,
which is the scan order of the loop; no entry declares a priority, so
priority-then-declaration order degenerates to declaration order): if
every entry before position i fails on the input and the entry at
position i matches, the interpreter returns exactly that entry's intent,
so at most one entry's action is selected, with no scoring or fuzzy
matching. -/
theorem c4_first_match (s : List Char) (i : Nat) (h : i < catalog.length)
    (ps : List (String × String))
    (hbefore : ∀ d ∈ catalog.take i, d.matcher s = none)
    (hmatch : (catalog.get ⟨i, h⟩).matcher s = some ps) :
    interpret s Mode.pc_control =
      { category := (catalog.get ⟨i, h⟩).category, parameters := ps,
        raw_text := s, confidence := Confidence.exact } :=
  scanFirstMatch catalog s i h ps hbefore hmatch

/-- Witness for claim C4: "navigate src" fails the first four entries and
matches the fifth, which wins. -/
theorem c4_first_match_witness :
    (∀ d ∈ catalog.take 4, d.matcher ("navigate src".data) = none) ∧
    interpret ("navigate src".data) Mode.pc_control =
      { category := Category.navigate, parameters := [("path", "src")],
        raw_text := ("navigate src".data), confidence := Confidence.exact } :=
  ⟨by decide, c4_first_match _ 4 (by decide) _ (by decide) (by decide)⟩

/-- Claim C5, counterexample: the input "open" followed by two spaces
does match the open entry — the greedy \s+ of /^open\s+(.+)$/i backtracks
and (.+) captures the final space — so the interpreter emits launch_app
with an empty (after trimming) app parameter instead of falling through. -/
theorem c5_counterexample :
    interpretS "open  " Mode.pc_control =
      { category := Category.launch_app, parameters := [("app", "")],
        raw_text := ("open  ".data), confidence := Confidence.exact } := by
  decide

/-- Claim C5 (amended): an input that is exactly the template prefix
("open"), or the prefix followed by a single whitespace character, fails
the slotted pattern and falls through, returning the ai_chat fallback when
nothing else matches; but the prefix followed by two or more whitespace
characters does match, with a slot value that is empty after trimming, so
the entry's category is emitted with an empty parameter. -/
theorem c5_amended_empty_slot :
    interpretS "open" Mode.pc_control = fallbackIntent ("open".data) ∧
    interpretS "open " Mode.pc_control = fallbackIntent ("open ".data) ∧
    interpretS "open  " Mode.pc_control =
      { category := Category.launch_app, parameters := [("app", "")],
        raw_text := ("open  ".data), confidence := Confidence.exact } :=
  ⟨by decide, by decide, by decide⟩

/-- Claim C6: slot extraction for matched templates — the capture between
the fixed prefix and the end, trimmed: "create folder MyProject" yields
folder_create with name "MyProject" and exact confidence, and
"execute ls -la" yields shell_execute with cmd "ls -la" and exact
confidence. -/
theorem c6_slot_extraction :
    interpretS "create folder MyProject" Mode.pc_control =
      { category := Category.folder_create,
        parameters := [("name", "MyProject")],
        raw_text := ("create folder MyProject".data),
        confidence := Confidence.exact } ∧
    interpretS "execute ls -la" Mode.pc_control =
      { category := Category.shell_execute, parameters := [("cmd", "ls -la")],
        raw_text := ("execute ls -la".data),
        confidence := Confidence.exact } :=
  ⟨by decide, by decide⟩

/-- Claim C7: the interpreter is total — it is a function returning
exactly one intent, with no error path — and for every non-empty text and
both modes the returned category is a member of the closed category set. -/
theorem c7_totality (s : List Char) (m : Mode) (_h : s ≠ []) :
    (interpret s m).category ∈
      [Category.launch_app, Category.close_app, Category.file_create,
       Category.folder_create, Category.file_list, Category.navigate,
       Category.shell_execute, Category.system_volume, Category.system_power,
       Category.media_control, Category.window_control, Category.web_search,
       Category.web_open, Category.screenshot, Category.ai_chat] := by
  cases hc : (interpret s m).category <;> decide

/-- Witness for claim C7 at the concrete input "hi" in chat mode. -/
theorem c7_totality_witness :
    ("hi".data ≠ ([] : List Char)) ∧
    (interpret ("hi".data) Mode.chat).category ∈
      [Category.launch_app, Category.close_app, Category.file_create,
       Category.folder_create, Category.file_list, Category.navigate,
       Category.shell_execute, Category.system_volume, Category.system_power,
       Category.media_control, Category.window_control, Category.web_search,
       Category.web_open, Category.screenshot, Category.ai_chat] :=
  ⟨by decide, c7_totality _ _ (by decide)⟩

/-- Claim C8, counterexample: the code performs no whitespace
normalization — "create folder X" and "create  folder X" differ only in
an internal whitespace run, yet the first is classified folder_create and
the second falls through every pattern to the ai_chat fallback. -/
theorem c8_counterexample :
    (interpretS "create folder X" Mode.pc_control).category =
      Category.folder_create ∧
    (interpretS "create  folder X" Mode.pc_control).category =
      Category.ai_chat :=
  ⟨by decide, by decide⟩

/-- Claim C8 (amended): classification is invariant under letter case
only — every pattern carries the /i flag, so two inputs with the same
lowercased copy receive the same category — while the input is not
trimmed and whitespace runs are not collapsed, so inputs differing in
whitespace may classify differently; the original text is preserved
verbatim in raw_text. -/
theorem c8_amended_case_invariance :
    (∀ (s t : List Char) (m : Mode), lc s = lc t →
      (interpret s m).category = (interpret t m).category) ∧
    (∀ (s : List Char) (m : Mode), (interpret s m).raw_text = s) := by
  constructor
  · intro s t m h
    cases m with
    | chat => rfl
    | pc_control => exact scanCatLC catalog catalogMatchLC s t h
  · intro s m
    cases m with
    | chat => rfl
    | pc_control => exact scanRawText catalog s

/-- Witness for the amended claim C8 at a concrete pair of inputs that
differ only in letter case. -/
theorem c8_amended_witness :
    lc ("CREATE FOLDER MyProject".data) = lc ("create folder myproject".data) ∧
    (interpret ("CREATE FOLDER MyProject".data) Mode.pc_control).category =
      (interpret ("create folder myproject".data) Mode.pc_control).category :=
  ⟨by decide, c8_amended_case_invariance.1 _ _ _ (by decide)⟩

/-- Claim C9: interpretation is deterministic — the classification reads
only the request text, the mode and the constant ALLOWED_COMMANDS table,
no ambient server state, so two calls on the same (text, mode) pair,
under any two server states, produce identical intent values: same
category, same parameters, same confidence. -/
theorem c9_determinism (st1 st2 : ServerState) (s : List Char) (m : Mode) :
    interpretIn st1 s m = interpretIn st2 s m := rfl

/-- The lowercased copy of an all-whitespace list is itself. -/
theorem lcOfSpaces {w : List Char} (h : ∀ c ∈ w, isSpaceChar c = true) :
    lc w = w := by
  induction w with
  | nil => rfl
  | cons c cs ih =>
    have h1 := toLowerOfSpace (h c (List.mem_cons_self c cs))
    have h2 := ih fun d hd => h d (List.mem_cons_of_mem c hd)
    simp only [lc, List.map_cons] at h2 ⊢
    rw [h1, h2]

/-- The lowercased copy of a whitespace-free list is whitespace-free. -/
theorem lcNonSpace {t : List Char} (h : ∀ c ∈ t, isSpaceChar c = false) :
    ∀ c ∈ lc t, isSpaceChar c = false := by
  intro c hc
  rcases List.mem_map.mp hc with ⟨d, hd, rfl⟩
  exact spaceFalseToLower (h d hd)

/-- dropWhile is the identity on a list whose head fails the predicate. -/
theorem dropWhileAllFalse {p : Char → Bool} {l : List Char}
    (h : ∀ c ∈ l, p c = false) : l.dropWhile p = l := by
  cases l with
  | nil => rfl
  | cons x xs => simp [List.dropWhile_cons, h x (List.mem_cons_self x xs)]

/-- Trimming a whitespace-free list is the identity. -/
theorem trimOfNonSpace {t : List Char} (h : ∀ c ∈ t, isSpaceChar c = false) :
    trimChars t = t := by
  unfold trimChars
  rw [dropWhileAllFalse h,
      dropWhileAllFalse (fun c hc => h c (List.mem_reverse.mp hc)),
      List.reverse_reverse]

/-- A take of a list headed by a cannot equal a list headed by b ≠ a. -/
theorem takeHeadNe {a b : Char} {x y : List Char} (hab : a ≠ b) {n : Nat}
    (hn : n ≠ 0) : (a :: x).take n ≠ b :: y := by
  cases n with
  | zero => exact absurd rfl hn
  | succ m => simp [List.take_succ_cons, hab]

/-- The lowercased copy of an input of the shape keyword-run-token-rest
splits along the same boundaries, with the whitespace run fixed. -/
theorem writeLcSplit (p w t r : List Char) (hp : lc p = ("write".data))
    (hws : ∀ c ∈ w, isSpaceChar c = true) :
    lc (p ++ w ++ t ++ r) = ("write".data) ++ (w ++ (lc t ++ lc r)) := by
  simp only [lc, List.map_append, List.append_assoc]
  rw [show List.map Char.toLower p = ("write".data) from hp,
      show List.map Char.toLower w = w from lcOfSpaces hws]

/-- Core computation for the write alias: on input p ++ w ++ t ++ r where
p case-folds to the keyword write, w is a non-empty whitespace run, t a
non-empty whitespace-free token and r is empty or starts with whitespace,
the create file pattern matches with group 1 exactly the token t. -/
theorem writeAliasMatch (p w t r : List Char)
    (hp : lc p = ("write".data))
    (hw : w ≠ [])
    (hws : ∀ c ∈ w, isSpaceChar c = true)
    (ht : t ≠ [])
    (hts : ∀ c ∈ t, isSpaceChar c = false)
    (hr : r = [] ∨ ∃ c r2, r = c :: r2 ∧ isSpaceChar c = true) :
    ∃ z, createFilePos (lc (p ++ w ++ t ++ r)) =
      some ((5 + w.length, t.length), z) := by
  obtain ⟨c, t2, rfl⟩ : ∃ c t2, t = c :: t2 := by
    cases t with
    | nil => exact absurd rfl ht
    | cons c t2 => exact ⟨c, t2, rfl⟩
  rw [writeLcSplit p w (c :: t2) r hp hws]
  have hcons : ("write".data) ++ (w ++ (lc (c :: t2) ++ lc r)) =
      'w' :: (("rite".data) ++ (w ++ (lc (c :: t2) ++ lc r))) := rfl
  have hne11 : ¬ ((("write".data) ++ (w ++ (lc (c :: t2) ++ lc r))).take 11 =
      ("create file".data)) := by
    rw [hcons]
    exact takeHeadNe (by decide) (by decide)
  have htake5 : (("write".data) ++ (w ++ (lc (c :: t2) ++ lc r))).take 5 =
      ("write".data) := List.take_left' (by decide)
  have hdrop5 : (("write".data) ++ (w ++ (lc (c :: t2) ++ lc r))).drop 5 =
      (w ++ (lc (c :: t2) ++ lc r)) := List.drop_left' (by decide)
  have hcx : isSpaceChar (Char.toLower c) = false :=
    spaceFalseToLower (hts c (List.mem_cons_self c t2))
  have htw0 : ((lc (c :: t2) ++ lc r).takeWhile isSpaceChar) = [] := by
    simp only [lc, List.map_cons, List.cons_append, List.takeWhile_cons, hcx]
    simp
  have htw : ((w ++ (lc (c :: t2) ++ lc r)).takeWhile isSpaceChar) = w := by
    rw [List.takeWhile_append_of_pos hws, htw0, List.append_nil]
  have hwlen : w.length ≠ 0 := by
    simpa [List.length_eq_zero] using hw
  have hdropw : ((w ++ (lc (c :: t2) ++ lc r)).drop w.length) =
      (lc (c :: t2) ++ lc r) := List.drop_left _ _
  have hallq : ∀ a ∈ lc (c :: t2), (fun x => !isSpaceChar x) a = true := by
    intro a ha
    simp [lcNonSpace hts a ha]
  have htok : ((lc (c :: t2) ++ lc r).takeWhile (fun x => !isSpaceChar x)) =
      lc (c :: t2) := by
    rw [List.takeWhile_append_of_pos hallq]
    rcases hr with rfl | ⟨d, r2, rfl, hd⟩
    · simp [lc]
    · simp [lc, List.takeWhile_cons, toLowerOfSpace hd, hd]
  have hklen : (lc (c :: t2)).length = (c :: t2).length := by simp [lc]
  have hklen0 : ¬ ((c :: t2).length = 0) := by simp
  apply Exists.intro
  unfold createFilePos
  rw [if_neg hne11, if_pos htake5]
  simp only [createFileAt]
  rw [hdrop5, htw, hdropw, htok, hklen]
  rw [if_neg hwlen, if_neg hklen0]

/-- Claim C10: the keyword write is an undocumented alias for file
creation — every input that begins with write (case-insensitively)
followed by a whitespace run and a whitespace-free token is classified by
the create file entry, with that token as the file name, instead of being
routed to ai_chat; the text after the token, after an optional
whitespace-with-whitespace bridge, becomes the trimmed file content, as
the two concrete inputs illustrate. -/
theorem c10_write_alias :
    (∀ (p w t r : List Char),
        lc p = ("write".data) →
        w ≠ [] →
        (∀ c ∈ w, isSpaceChar c = true) →
        t ≠ [] →
        (∀ c ∈ t, isSpaceChar c = false) →
        (r = [] ∨ ∃ c r2, r = c :: r2 ∧ isSpaceChar c = true) →
        (interpret (p ++ w ++ t ++ r) Mode.pc_control).category =
            Category.file_create ∧
          (interpret (p ++ w ++ t ++ r) Mode.pc_control).parameters.head? =
            some ("name", String.mk t)) ∧
    interpretS "write notes.txt with hello world" Mode.pc_control =
      { category := Category.file_create,
        parameters := [("name", "notes.txt"), ("content", "hello world")],
        raw_text := ("write notes.txt with hello world".data),
        confidence := Confidence.exact } ∧
    interpretS "WRITE a.txt b c" Mode.pc_control =
      { category := Category.file_create,
        parameters := [("name", "a.txt"), ("content", "b c")],
        raw_text := ("WRITE a.txt b c".data),
        confidence := Confidence.exact } := by
  refine ⟨?_, by decide, by decide⟩
  intro p w t r hp hw hws ht hts hr
  obtain ⟨z, hcf⟩ := writeAliasMatch p w t r hp hw hws ht hts hr
  have hlp : p.length = 5 := by
    have h := congrArg List.length hp
    simp only [lc, List.length_map] at h
    rw [show (("write".data)).length = 5 from rfl] at h
    exact h
  have hslot1 : slotPos ("create folder".data) (lc (p ++ w ++ t ++ r)) =
      none := by
    rw [writeLcSplit p w t r hp hws]
    have hne : ¬ ((("write".data) ++ (w ++ (lc t ++ lc r))).take
        (("create folder".data)).length = ("create folder".data)) := by
      rw [show ("write".data) ++ (w ++ (lc t ++ lc r)) =
          'w' :: (("rite".data) ++ (w ++ (lc t ++ lc r))) from rfl]
      exact takeHeadNe (by decide) (by decide)
    unfold slotPos
    rw [if_neg hne]
  have hbefore : ∀ d ∈ catalog.take 1,
      d.matcher (p ++ w ++ t ++ r) = none := by
    intro d hd
    simp only [catalog, List.take_succ_cons, List.take_zero,
      List.mem_singleton] at hd
    subst hd
    exact Option.map_eq_none'.mpr hslot1
  have hlt1 : (1 : Nat) < catalog.length := by decide
  have hmatch : (catalog.get ⟨1, hlt1⟩).matcher (p ++ w ++ t ++ r) =
      some [mkParam "name"
              (trimChars (sliceAt (p ++ w ++ t ++ r) (5 + w.length, t.length))),
            mkParam "content" (trimChars (sliceAt (p ++ w ++ t ++ r) z))] := by
    show (createFilePos (lc (p ++ w ++ t ++ r))).map
        (fun q => [mkParam "name" (trimChars (sliceAt (p ++ w ++ t ++ r) q.1)),
                   mkParam "content"
                     (trimChars (sliceAt (p ++ w ++ t ++ r) q.2))]) = _
    rw [hcf]
    rfl
  have hscan := scanFirstMatch catalog (p ++ w ++ t ++ r) 1 hlt1 _ hbefore hmatch
  have hassoc : p ++ w ++ t ++ r = (p ++ w) ++ (t ++ r) := by
    simp [List.append_assoc]
  have hslice : sliceAt (p ++ w ++ t ++ r) (5 + w.length, t.length) = t := by
    show ((p ++ w ++ t ++ r).drop (5 + w.length)).take t.length = t
    rw [hassoc, List.drop_left' (by simp [hlp]), List.take_left]
  constructor
  · show (scan catalog (p ++ w ++ t ++ r)).category = _
    rw [hscan]
    rfl
  · show (scan catalog (p ++ w ++ t ++ r)).parameters.head? = _
    rw [hscan]
    show some (mkParam "name"
        (trimChars (sliceAt (p ++ w ++ t ++ r) (5 + w.length, t.length)))) = _
    rw [hslice, trimOfNonSpace hts]
    rfl

/-- Witness for claim C10: the general part applied at the concrete
decomposition of the input write-space-token. -/
theorem c10_write_alias_witness :
    lc ("write".data) = ("write".data) ∧
    (interpret (("write".data) ++ [' '] ++ ("a.txt".data) ++ [])
        Mode.pc_control).category = Category.file_create ∧
    (interpret (("write".data) ++ [' '] ++ ("a.txt".data) ++ [])
        Mode.pc_control).parameters.head? =
      some ("name", String.mk ("a.txt".data)) :=
  ⟨by decide,
   (c10_write_alias.1 _ _ _ _ (by decide) (by decide) (by decide) (by decide)
     (by decide) (Or.inl rfl)).1,
   (c10_write_alias.1 _ _ _ _ (by decide) (by decide) (by decide) (by decide)
     (by decide) (Or.inl rfl)).2⟩

